import Mathlib

/-!
Shallow embedding of the bulk file-duplication tool
(src/duplicate_files_cli.py, with the naming rule of
src/scripts/duplicate_files_advanced.py embedded separately).

Modelling choices:
* Paths are plain strings joined with "/"; the filesystem is a finite
  association list from path strings to file data, kept sorted by key so
  that writing the same data to the same path twice is literally
  idempotent.  Directories are implicit: `mkdir(..., exist_ok=True)` is a
  no-op in the model.
* The thread pool of `generate_files` is modelled as a left fold over the
  task list in submission order; the claims under study do not depend on
  the completion order (tasks only insert into the filesystem map and
  into the completed set).
* Each `uuid.uuid4().hex` draw is modelled by an oracle
  `hex : String → Nat → String` giving the draw made for source `src` at
  loop index `i`.
* Archive bytes are abstracted: a written ZIP archive is modelled by its
  ordered list of entry names (the `arcname` values, relative to the
  output root).
-/

namespace DupFiles

/-- Last component of a path: everything after the last '/'.
Mirrors `pathlib.Path(s).name` for file paths (trailing separators are
not normalized; sources name regular files). -/
def baseName (s : String) : String :=
  ⟨(s.data.reverse.takeWhile (fun c => c ≠ '/')).reverse⟩

/-- Index of the last '.' in a list of characters, if any
(mirrors `str.rfind(".")`). -/
def lastDotIdx (b : List Char) : Option Nat :=
  ((List.range b.length).filter (fun i => b.getD i ' ' = '.')).getLast?

/-- `pathlib.PurePath.stem`: the final component without its suffix.
The suffix starts at the last dot, provided that dot is neither the
first nor the last character of the name. -/
def pathStem (s : String) : String :=
  let b := (baseName s).data
  match lastDotIdx b with
  | some i => if 0 < i ∧ i + 1 < b.length then ⟨b.take i⟩ else ⟨b⟩
  | none => ⟨b⟩

/-- `pathlib.PurePath.suffix`: the extension of the final component. -/
def pathSuffix (s : String) : String :=
  let b := (baseName s).data
  match lastDotIdx b with
  | some i => if 0 < i ∧ i + 1 < b.length then ⟨b.drop i⟩ else ""
  | none => ""

/-- Fuel-driven digit expansion of a natural number, most significant
digit first. -/
def toDecAux : Nat → Nat → List Char
  | 0, _ => []
  | fuel + 1, n => if n = 0 then [] else toDecAux fuel (n / 10) ++ [Nat.digitChar (n % 10)]

/-- Decimal rendering of a natural number, mirroring Python's `str(i)`. -/
def natStr (n : Nat) : String :=
  if n = 0 then "0" else ⟨toDecAux (n + 1) n⟩

/-- Numeric value of a decimal digit character (inverse used in proofs). -/
def decVal (c : Char) : Nat := c.toNat - 48

/-- Read a decimal digit string back into a number (used in proofs). -/
def fromDec (cs : List Char) : Nat :=
  cs.foldl (fun acc c => acc * 10 + decVal c) 0

/-- Data stored at a path: ordinary file bytes, the JSON resume ledger
(a list of task identifiers), or a written ZIP archive (its entry
names). -/
inductive FileData where
  | content (data : String)
  | ledger (ids : List String)
  | archive (entries : List String)
deriving DecidableEq

/-- The filesystem: an association list path ↦ data, kept sorted by key. -/
abbrev FS := List (String × FileData)

def fsGet : FS → String → Option FileData
  | [], _ => none
  | (k, v) :: t, p => if p = k then some v else fsGet t p

/-- Strict code-point comparison of character lists. -/
def chLt : List Char → List Char → Bool
  | [], [] => false
  | [], _ :: _ => true
  | _ :: _, [] => false
  | a :: as, b :: bs =>
    if a.toNat < b.toNat then true
    else if b.toNat < a.toNat then false
    else chLt as bs

def strLtB (a b : String) : Bool := chLt a.data b.data

/-- Write (create or overwrite) the file at path `p`; the sorted-insert
keeps the representation canonical. -/
def fsSet : FS → String → FileData → FS
  | [], p, d => [(p, d)]
  | (k, v) :: t, p, d =>
    if strLtB p k then (p, d) :: (k, v) :: t
    else if p = k then (p, d) :: t
    else (k, v) :: fsSet t p d

def RESUME_FILE : String := ".resume_state.json"

def resumePath (output_dir : String) : String := output_dir ++ "/" ++ RESUME_FILE

/-- `load_resume` (duplicate_files_cli.py lines 47-52): read the persisted
set if the file exists, else the empty set; malformed persisted state
(anything that is not a JSON list) raises, modelled as an error. -/
def load_resume (output_dir : String) (fs : FS) : Except String (Finset String) :=
  match fsGet fs (resumePath output_dir) with
  | some (.ledger ids) => .ok ids.toFinset
  | some _ => .error "CorruptResumeState"
  | none => .ok ∅

/-- `save_resume` (lines 55-58): `json.dump(sorted(completed), f)`. -/
def save_resume (output_dir : String) (completed : Finset String) (fs : FS) : FS :=
  fsSet fs (resumePath output_dir) (.ledger (completed.sort (· ≤ ·)))

/-- `copy_one` (lines 64-67): ensure the parent directory (implicit in
the model) and `shutil.copy2(src, dst)`. -/
def copy_one (fs : FS) (src dst : String) : FS :=
  match fsGet fs src with
  | some d => fsSet fs dst d
  | none => fs

/-- One planned copy: source path, destination path, and the name used
as resume identifier (duplicate_files_cli.py line 112: `(src, dst, name)`). -/
structure Task where
  src : String
  dst : String
  name : String
deriving DecidableEq

/-- The parameters of `generate_files` (workers are not modelled: the
pool is folded sequentially). -/
structure Config where
  sources : List String
  copies : Nat
  output_dir : String
  per_subfolder : Nat
  dry_run : Bool
  resume : Bool
  randomize : Bool
  max_limit : Nat
deriving DecidableEq

/-- Destination filename (lines 96-101):
`f"{stem}_{uuid.uuid4().hex}{suffix}" if randomize else f"{stem}_{i}{suffix}"`. -/
def task_name (randomize : Bool) (hex : String → Nat → String) (src : String) (i : Nat) : String :=
  if randomize then pathStem src ++ "_" ++ hex src i ++ pathSuffix src
  else pathStem src ++ "_" ++ natStr i ++ pathSuffix src

/-- Destination directory (lines 106-110): `output_dir / f"part_{idx}"`
with `idx = (i - 1) // per_subfolder + 1` when `per_subfolder > 0`,
else the output root. -/
def dest_dir (output_dir : String) (per_subfolder i : Nat) : String :=
  if 0 < per_subfolder then output_dir ++ "/part_" ++ natStr ((i - 1) / per_subfolder + 1)
  else output_dir

def task_dst (output_dir : String) (per_subfolder : Nat) (randomize : Bool)
    (hex : String → Nat → String) (src : String) (i : Nat) : String :=
  dest_dir output_dir per_subfolder i ++ "/" ++ task_name randomize hex src i

/-- The inner loop of `generate_files` (lines 96-112): for `i` in
`range(1, copies + 1)` build the name, skip it when it is in the
completed set, else append the task. -/
def tasks_for_source (output_dir : String) (per_subfolder copies : Nat) (randomize : Bool)
    (hex : String → Nat → String) (completed : Finset String) (src : String) : List Task :=
  (List.range' 1 copies).filterMap (fun i =>
    let name := task_name randomize hex src i
    if name ∈ completed then none
    else some ⟨src, task_dst output_dir per_subfolder randomize hex src i, name⟩)

/-- The task list over all sources, ignoring the existence check. -/
def plan_tasks (output_dir : String) (per_subfolder copies : Nat) (randomize : Bool)
    (hex : String → Nat → String) (completed : Finset String) : List String → List Task
  | [] => []
  | src :: rest =>
    tasks_for_source output_dir per_subfolder copies randomize hex completed src ++
      plan_tasks output_dir per_subfolder copies randomize hex completed rest

/-- The outer loop of `generate_files` (lines 88-112): die on the first
source that does not exist, else collect the per-source tasks in order. -/
def build_tasks (output_dir : String) (per_subfolder copies : Nat) (randomize : Bool)
    (hex : String → Nat → String) (completed : Finset String) (fs : FS) :
    List String → Except String (List Task)
  | [] => .ok []
  | src :: rest =>
    if (fsGet fs src).isSome then
      match build_tasks output_dir per_subfolder copies randomize hex completed fs rest with
      | .ok ts =>
        .ok (tasks_for_source output_dir per_subfolder copies randomize hex completed src ++ ts)
      | .error e => .error e
    else .error ("Source not found: " ++ src)

deriving instance DecidableEq for Except

/-- Outcome of `generate_files`: the returned completed set (or the
`die` message), the filesystem afterwards, and the task count reported
to the user (the `[DRY-RUN] Would generate N files` count, or the
progress bar's total `len(futures)` in a real run; 0 when the run
dies). -/
structure GenOut where
  result : Except String (Finset String)
  fs : FS
  reported : Nat
deriving DecidableEq

/-- `generate_files` (duplicate_files_cli.py lines 70-134). -/
def generate_files (cfg : Config) (hex : String → Nat → String) (fs : FS) : GenOut :=
  match (if cfg.resume then load_resume cfg.output_dir fs else .ok ∅) with
  | .error e => ⟨.error e, fs, 0⟩
  | .ok completed =>
    let total := cfg.sources.length * cfg.copies
    if cfg.max_limit < total then
      ⟨.error ("Requested " ++ natStr total ++ " files exceeds limit " ++ natStr cfg.max_limit),
        fs, 0⟩
    else
      match build_tasks cfg.output_dir cfg.per_subfolder cfg.copies cfg.randomize hex
          completed fs cfg.sources with
      | .error e => ⟨.error e, fs, 0⟩
      | .ok tasks =>
        if cfg.dry_run then ⟨.ok completed, fs, tasks.length⟩
        else
          let fs1 := tasks.foldl (fun a t => copy_one a t.src t.dst) fs
          let completed1 := completed ∪ (tasks.map Task.name).toFinset
          ⟨.ok completed1,
            if cfg.resume then save_resume cfg.output_dir completed1 fs1 else fs1,
            tasks.length⟩

/-- Code-point comparison of character lists (Python string order). -/
def chLe : List Char → List Char → Bool
  | [], _ => true
  | _ :: _, [] => false
  | a :: as, b :: bs =>
    if a.toNat < b.toNat then true
    else if b.toNat < a.toNat then false
    else chLe as bs

def strLeB (a b : String) : Bool := chLe a.data b.data

def insertStr (x : String) : List String → List String
  | [] => [x]
  | y :: t => if strLeB x y then x :: y :: t else y :: insertStr x t

/-- Insertion sort by code points, mirroring Python's `sorted` on paths. -/
def sortStrs (l : List String) : List String := l.foldr insertStr []

/-- Is `p` strictly below directory `root`? -/
def strUnder (root p : String) : Bool :=
  p.data.take (root.length + 1) == (root ++ "/").data

/-- The file enumeration of `zip_chunks` (lines 141-144):
`sorted(p for p in output_dir.rglob("*") if p.is_file() and p.name != RESUME_FILE)`.
Every entry of the model filesystem is a regular file. -/
def sorted_output_files (output_dir : String) (fs : FS) : List String :=
  sortStrs ((fs.map Prod.fst).filter
    (fun p => strUnder output_dir p && !(baseName p == RESUME_FILE)))

/-- The slices `files[i:i+chunk_size]` for `i in range(0, len(files), chunk_size)`
(lines 149-154), with `i = k * chunk_size`. -/
def chunk_slices (files : List String) (chunk_size : Nat) : List (List String) :=
  (List.range ((files.length + chunk_size - 1) / chunk_size)).map
    (fun k => (files.drop (k * chunk_size)).take chunk_size)

def splitSlashAux : List Char → List Char → List String
  | [], acc => [⟨acc.reverse⟩]
  | c :: rest, acc =>
    if c = '/' then ⟨acc.reverse⟩ :: splitSlashAux rest []
    else splitSlashAux rest (c :: acc)

/-- Split a path string on '/'. -/
def splitSlash (s : String) : List String := splitSlashAux s.data []

def joinSlash : List String → String
  | [] => ""
  | [p] => p
  | p :: rest => p ++ "/" ++ joinSlash rest

/-- `Path.parent` of a path string. -/
def parentDir (s : String) : String :=
  let parts := splitSlash s
  if parts.length ≤ 1 then "." else joinSlash parts.dropLast

/-- `p.relative_to(root)` for `p` strictly below `root`. -/
def relTo (root p : String) : String := ⟨p.data.drop (root.length + 1)⟩

/-- `zip_chunks` (lines 140-155): enumerate, return early when empty,
else write one archive per slice at
`output_dir.parent / f"{output_dir.name}_part{i//chunk_size+1}.zip"`,
each entry stored relative to the output root. -/
def zip_chunks (output_dir : String) (chunk_size : Nat) (fs : FS) : FS :=
  let files := sorted_output_files output_dir fs
  if files = [] then fs
  else
    (List.range ((files.length + chunk_size - 1) / chunk_size)).foldl
      (fun acc k =>
        fsSet acc
          (parentDir output_dir ++ "/" ++ baseName output_dir ++ "_part" ++
            natStr (k + 1) ++ ".zip")
          (.archive (((files.drop (k * chunk_size)).take chunk_size).map (relTo output_dir))))
      fs

/-- The tail of `main` (duplicate_files_cli.py lines 206-225) after the
arguments have been gathered: `output_dir.mkdir` (a no-op here, the model
has no directories), `generate_files`, optional `zip_chunks`, and the
final summary line.  The result is the (exit code, message) pair and the
filesystem: `die` prints `ERROR: ...` and exits 1, success prints
`SUCCESS: {len(completed)} files processed` and exits 0. -/
def main_run (cfg : Config) (zipFlag : Bool) (chunk_size : Nat)
    (hex : String → Nat → String) (fs : FS) : (Nat × String) × FS :=
  let g := generate_files cfg hex fs
  match g.result with
  | .error e => ((1, "ERROR: " ++ e), g.fs)
  | .ok completed =>
    let fs2 := if zipFlag && !cfg.dry_run then zip_chunks cfg.output_dir chunk_size g.fs else g.fs
    ((0, "SUCCESS: " ++ natStr completed.card ++ " files processed"), fs2)

/-- Destination filename of scripts/duplicate_files_advanced.py
(lines 90-94): `f"{uuid.uuid4().hex}{ext}" if randomize else f"{name}_{i}{ext}"`,
with `name, ext = os.path.splitext(os.path.basename(src))`. -/
def adv_filename (randomize : Bool) (hexv : String) (name ext : String) (i : Nat) : String :=
  if randomize then hexv ++ ext else name ++ "_" ++ natStr i ++ ext

/-- A fixed uuid oracle used in concrete instantiations. -/
def hex0 : String → Nat → String := fun _ _ => "deadbeef"

/-- The same configuration with the dry-run flag replaced. -/
def withDryRun (cfg : Config) (b : Bool) : Config :=
  ⟨cfg.sources, cfg.copies, cfg.output_dir, cfg.per_subfolder, b, cfg.resume,
    cfg.randomize, cfg.max_limit⟩

/-! ### Helper lemmas: decimal rendering -/

theorem decVal_digitChar {d : Nat} (h : d < 10) : decVal (Nat.digitChar d) = d := by
  interval_cases d <;> decide

theorem digitChar_ne_slash {d : Nat} (h : d < 10) : Nat.digitChar d ≠ '/' := by
  interval_cases d <;> decide

theorem fromDec_append (a b : List Char) :
    fromDec (a ++ b) = b.foldl (fun acc c => acc * 10 + decVal c) (fromDec a) := by
  simp [fromDec, List.foldl_append]

theorem fromDec_toDecAux : ∀ fuel n, n < fuel → fromDec (toDecAux fuel n) = n := by
  intro fuel
  induction fuel with
  | zero => intro n h; omega
  | succ fuel ih =>
    intro n h
    by_cases h0 : n = 0
    · simp [toDecAux, h0, fromDec]
    · have hdiv : n / 10 < fuel := by omega
      have hmod : n % 10 < 10 := Nat.mod_lt _ (by omega)
      simp only [toDecAux, h0, if_false, fromDec_append, List.foldl]
      rw [ih _ hdiv, decVal_digitChar hmod]
      omega

theorem natStr_inj : ∀ m n, natStr m = natStr n → m = n := by
  intro m n h
  by_cases hm : m = 0 <;> by_cases hn : n = 0
  · omega
  · exfalso
    simp only [natStr, hm, hn, if_true, if_false] at h
    have := congrArg (fun s => fromDec s.data) h
    simp only at this
    rw [fromDec_toDecAux (n + 1) n (by omega)] at this
    have h0 : fromDec ("0".data) = 0 := by decide
    rw [h0] at this
    omega
  · exfalso
    simp only [natStr, hm, hn, if_true, if_false] at h
    have := congrArg (fun s => fromDec s.data) h
    simp only at this
    rw [fromDec_toDecAux (m + 1) m (by omega)] at this
    have h0 : fromDec ("0".data) = 0 := by decide
    rw [h0] at this
    omega
  · simp only [natStr, hm, hn, if_false] at h
    have := congrArg (fun s => fromDec s.data) h
    simp only at this
    rw [fromDec_toDecAux (m + 1) m (by omega), fromDec_toDecAux (n + 1) n (by omega)] at this
    exact this

theorem mem_toDecAux_ne_slash : ∀ fuel n c, c ∈ toDecAux fuel n → c ≠ '/' := by
  intro fuel
  induction fuel with
  | zero => intro n c h; simp [toDecAux] at h
  | succ fuel ih =>
    intro n c h
    by_cases h0 : n = 0
    · simp [toDecAux, h0] at h
    · simp only [toDecAux, h0, if_false, List.mem_append, List.mem_singleton] at h
      rcases h with h | h
      · exact ih _ _ h
      · rw [h]; exact digitChar_ne_slash (Nat.mod_lt _ (by omega))

theorem mem_natStr_ne_slash (n : Nat) (c : Char) (h : c ∈ (natStr n).data) : c ≠ '/' := by
  by_cases h0 : n = 0
  · simp only [natStr, h0, if_true] at h
    have hc : c = '0' := by simpa using h
    rw [hc]; decide
  · simp only [natStr, h0, if_false] at h
    exact mem_toDecAux_ne_slash _ _ _ h

/-! ### Helper lemmas: path components -/

theorem mem_baseName_ne_slash (s : String) (c : Char) (h : c ∈ (baseName s).data) : c ≠ '/' := by
  simp only [baseName, List.mem_reverse] at h
  have := List.mem_takeWhile_imp h
  simpa using this

theorem mem_pathStem_ne_slash (s : String) (c : Char) (h : c ∈ (pathStem s).data) : c ≠ '/' := by
  apply mem_baseName_ne_slash s
  simp only [pathStem] at h
  rcases hidx : lastDotIdx (baseName s).data with _ | i <;> rw [hidx] at h
  · exact h
  · by_cases hb : 0 < i ∧ i + 1 < (baseName s).data.length
    · simp only [hb, if_true] at h
      exact List.take_subset _ _ h
    · simp only [hb, if_false] at h
      exact h

theorem mem_pathSuffix_ne_slash (s : String) (c : Char) (h : c ∈ (pathSuffix s).data) :
    c ≠ '/' := by
  apply mem_baseName_ne_slash s
  simp only [pathSuffix] at h
  rcases hidx : lastDotIdx (baseName s).data with _ | i <;> rw [hidx] at h
  · simp at h
  · by_cases hb : 0 < i ∧ i + 1 < (baseName s).data.length
    · simp only [hb, if_true] at h
      exact List.drop_subset _ _ h
    · simp only [hb, if_false] at h
      simp at h

theorem takeWhile_all_append (p : Char → Bool) :
    ∀ (a : List Char) (x : Char) (b : List Char), (∀ c ∈ a, p c = true) → p x = false →
      (a ++ x :: b).takeWhile p = a := by
  intro a
  induction a with
  | nil => intro x b _ hx; simp [List.takeWhile_cons, hx]
  | cons y t ih =>
    intro x b ha hx
    have hy : p y = true := ha y (by simp)
    simp only [List.cons_append, List.takeWhile_cons, hy, if_true]
    rw [ih x b (fun c hc => ha c (by simp [hc])) hx]

/-- The final component of `dir ++ "/" ++ name` is `name`, provided `name`
contains no separator. -/
theorem baseName_append (dir name : String) (h : ∀ c ∈ name.data, c ≠ '/') :
    baseName (dir ++ "/" ++ name) = name := by
  apply String.ext
  simp only [baseName, String.data_append]
  have h2 : (dir.data ++ ("/" : String).data ++ name.data).reverse
      = name.data.reverse ++ '/' :: dir.data.reverse := by
    simp
  rw [h2]
  rw [takeWhile_all_append (fun c => decide (c ≠ '/')) name.data.reverse '/' dir.data.reverse
    (fun c hc => by simpa using h c (List.mem_reverse.mp hc)) (by simp)]
  simp

/-- Cancellation: if `a/b = c/d` with slash-free `b` and `d`, then `b = d`
and `a = c`. -/
theorem slash_append_inj (a b c d : String)
    (hb : ∀ x ∈ b.data, x ≠ '/') (hd : ∀ x ∈ d.data, x ≠ '/')
    (h : a ++ "/" ++ b = c ++ "/" ++ d) : b = d ∧ a = c := by
  have h1 : baseName (a ++ "/" ++ b) = baseName (c ++ "/" ++ d) := by rw [h]
  rw [baseName_append _ _ hb, baseName_append _ _ hd] at h1
  refine ⟨h1, ?_⟩
  have h2 := congrArg String.data h
  simp only [String.data_append] at h2
  rw [h1] at h2
  have h3 := List.append_cancel_right h2
  exact String.ext (List.append_cancel_right h3)

/-! ### Helper lemmas: sequential task names -/

theorem mem_string_append {s t : String} {c : Char} (h : c ∈ (s ++ t).data) :
    c ∈ s.data ∨ c ∈ t.data := by
  rw [String.data_append] at h
  exact List.mem_append.mp h

theorem mem_seq_name_ne_slash (hex : String → Nat → String) (src : String) (i : Nat)
    (c : Char) (h : c ∈ (task_name false hex src i).data) : c ≠ '/' := by
  simp only [task_name, if_false] at h
  rcases mem_string_append h with h | h
  · rcases mem_string_append h with h | h
    · rcases mem_string_append h with h | h
      · exact mem_pathStem_ne_slash src c h
      · have hc : c = '_' := by simpa using h
        rw [hc]; decide
    · exact mem_natStr_ne_slash i c h
  · exact mem_pathSuffix_ne_slash src c h

theorem seq_name_inj (hex hex' : String → Nat → String) (src : String) (i j : Nat)
    (h : task_name false hex src i = task_name false hex' src j) : i = j := by
  apply natStr_inj
  apply String.ext
  have h2 : (pathStem src ++ "_" ++ natStr i ++ pathSuffix src).data
      = (pathStem src ++ "_" ++ natStr j ++ pathSuffix src).data := congrArg String.data h
  simp only [String.data_append, List.append_assoc] at h2
  have h3 := List.append_cancel_left h2
  have h4 := List.append_cancel_left h3
  exact List.append_cancel_right h4

/-! ### Helper lemmas: the filesystem map -/

theorem chLt_irrefl : ∀ l : List Char, chLt l l = false := by
  intro l
  induction l with
  | nil => rfl
  | cons a t ih => simp [chLt, ih]

theorem strLtB_irrefl (p : String) : strLtB p p = false := chLt_irrefl p.data

theorem fsGet_fsSet_self : ∀ (fs : FS) (p : String) (d : FileData),
    fsGet (fsSet fs p d) p = some d := by
  intro fs p d
  induction fs with
  | nil => simp [fsSet, fsGet]
  | cons kv t ih =>
    obtain ⟨k, v⟩ := kv
    by_cases hlt : strLtB p k
    · simp [fsSet, hlt, fsGet]
    · by_cases heq : p = k
      · simp [fsSet, hlt, heq, fsGet, strLtB_irrefl]
      · simp [fsSet, hlt, heq, fsGet, ih]

theorem fsGet_fsSet_ne : ∀ (fs : FS) (p q : String) (d : FileData), q ≠ p →
    fsGet (fsSet fs p d) q = fsGet fs q := by
  intro fs p q d hne
  induction fs with
  | nil => simp [fsSet, fsGet, hne]
  | cons kv t ih =>
    obtain ⟨k, v⟩ := kv
    by_cases hlt : strLtB p k
    · simp [fsSet, hlt, fsGet, hne]
    · by_cases heq : p = k
      · subst heq
        simp [fsSet, hlt, strLtB_irrefl, fsGet, hne]
      · by_cases hqk : q = k
        · simp [fsSet, hlt, heq, fsGet, hqk]
        · simp [fsSet, hlt, heq, fsGet, hqk, ih]

theorem fsSet_fsSet_self : ∀ (fs : FS) (p : String) (d : FileData),
    fsSet (fsSet fs p d) p d = fsSet fs p d := by
  intro fs p d
  induction fs with
  | nil => simp [fsSet, strLtB_irrefl]
  | cons kv t ih =>
    obtain ⟨k, v⟩ := kv
    by_cases hlt : strLtB p k
    · simp [fsSet, hlt, strLtB_irrefl]
    · by_cases heq : p = k
      · simp [fsSet, hlt, heq, strLtB_irrefl]
      · simp [fsSet, hlt, heq, ih]

theorem isSome_fsGet_fsSet (fs : FS) (p q : String) (d : FileData)
    (h : (fsGet fs q).isSome = true) : (fsGet (fsSet fs p d) q).isSome = true := by
  by_cases hq : q = p
  · subst hq; rw [fsGet_fsSet_self]; rfl
  · rw [fsGet_fsSet_ne fs p q d hq]; exact h

theorem isSome_fsGet_copy_one (fs : FS) (s d q : String)
    (h : (fsGet fs q).isSome = true) : (fsGet (copy_one fs s d) q).isSome = true := by
  unfold copy_one
  rcases fsGet fs s with _ | x
  · exact h
  · exact isSome_fsGet_fsSet fs d q x h

theorem isSome_fsGet_foldl_copy : ∀ (tasks : List Task) (fs : FS) (q : String),
    (fsGet fs q).isSome = true →
    (fsGet (tasks.foldl (fun a t => copy_one a t.src t.dst) fs) q).isSome = true := by
  intro tasks
  induction tasks with
  | nil => intro fs q h; exact h
  | cons t rest ih =>
    intro fs q h
    exact ih _ _ (isSome_fsGet_copy_one fs t.src t.dst q h)

/-! ### Helper lemmas: planning -/

theorem tasks_for_source_empty (output_dir : String) (per_subfolder copies : Nat)
    (randomize : Bool) (hex : String → Nat → String) (src : String) :
    tasks_for_source output_dir per_subfolder copies randomize hex ∅ src
      = (List.range' 1 copies).map (fun i =>
          ⟨src, task_dst output_dir per_subfolder randomize hex src i,
            task_name randomize hex src i⟩) := by
  simp only [tasks_for_source, Finset.not_mem_empty, if_false]
  exact congrFun (List.filterMap_eq_map _) _

theorem length_tasks_for_source_empty (output_dir : String) (per_subfolder copies : Nat)
    (randomize : Bool) (hex : String → Nat → String) (src : String) :
    (tasks_for_source output_dir per_subfolder copies randomize hex ∅ src).length = copies := by
  rw [tasks_for_source_empty]
  simp

theorem length_plan_tasks_empty (output_dir : String) (per_subfolder copies : Nat)
    (randomize : Bool) (hex : String → Nat → String) :
    ∀ sources : List String,
      (plan_tasks output_dir per_subfolder copies randomize hex ∅ sources).length
        = sources.length * copies := by
  intro sources
  induction sources with
  | nil => simp [plan_tasks]
  | cons src rest ih =>
    simp only [plan_tasks, List.length_append, ih, List.length_cons,
      length_tasks_for_source_empty]
    ring

theorem filterMap_skip_filter (output_dir : String) (per_subfolder : Nat) (randomize : Bool)
    (hex : String → Nat → String) (src : String) (c : Finset String) :
    ∀ l : List Nat,
      (l.filterMap (fun i =>
        if task_name randomize hex src i ∈ c then none
        else some (⟨src, task_dst output_dir per_subfolder randomize hex src i,
          task_name randomize hex src i⟩ : Task)))
      = (l.map (fun i =>
          (⟨src, task_dst output_dir per_subfolder randomize hex src i,
            task_name randomize hex src i⟩ : Task))).filter
          (fun t => !(decide (t.name ∈ c))) := by
  intro l
  induction l with
  | nil => rfl
  | cons i t ih =>
    by_cases hm : task_name randomize hex src i ∈ c <;>
      simp [List.filterMap_cons, List.filter_cons, hm, ih]

/-- The resume filter of the planner: planning against a completed set is
planning against the empty set followed by discarding exactly the tasks
whose identifier is in the completed set. -/
theorem tasks_for_source_filter (output_dir : String) (per_subfolder copies : Nat)
    (randomize : Bool) (hex : String → Nat → String) (c : Finset String) (src : String) :
    tasks_for_source output_dir per_subfolder copies randomize hex c src
      = (tasks_for_source output_dir per_subfolder copies randomize hex ∅ src).filter
          (fun t => !(decide (t.name ∈ c))) := by
  rw [tasks_for_source_empty]
  exact filterMap_skip_filter output_dir per_subfolder randomize hex src c _

theorem build_tasks_eq_ok (output_dir : String) (per_subfolder copies : Nat)
    (randomize : Bool) (hex : String → Nat → String) (c : Finset String) (fs : FS) :
    ∀ sources : List String, (∀ s ∈ sources, (fsGet fs s).isSome = true) →
      build_tasks output_dir per_subfolder copies randomize hex c fs sources
        = .ok (plan_tasks output_dir per_subfolder copies randomize hex c sources) := by
  intro sources
  induction sources with
  | nil => intro _; rfl
  | cons src rest ih =>
    intro h
    have hsrc : (fsGet fs src).isSome = true := h src (by simp)
    simp only [build_tasks, hsrc, if_true, ih (fun s hs => h s (by simp [hs])), plan_tasks]

theorem mem_name_plan (output_dir : String) (per_subfolder copies : Nat)
    (randomize : Bool) (hex : String → Nat → String) (c : Finset String) :
    ∀ (sources : List String) (src : String) (i : Nat), src ∈ sources →
      i ∈ List.range' 1 copies →
      task_name randomize hex src i ∈ c ∨
        task_name randomize hex src i ∈
          (plan_tasks output_dir per_subfolder copies randomize hex c sources).map Task.name := by
  intro sources
  induction sources with
  | nil => intro src i hsrc _; simp at hsrc
  | cons s rest ih =>
    intro src i hsrc hi
    by_cases hm : task_name randomize hex src i ∈ c
    · exact Or.inl hm
    · right
      simp only [plan_tasks, List.map_append, List.mem_append]
      rcases List.mem_cons.mp hsrc with hs | hs
      · left
        subst hs
        simp only [tasks_for_source, List.map_filterMap]
        apply List.mem_filterMap.mpr
        refine ⟨i, hi, ?_⟩
        simp [hm]
      · right
        rcases ih src i hs hi with h | h
        · exact absurd h hm
        · exact h

theorem tasks_for_source_eq_nil (output_dir : String) (per_subfolder copies : Nat)
    (randomize : Bool) (hex : String → Nat → String) (c : Finset String) (src : String)
    (hall : ∀ i ∈ List.range' 1 copies, task_name randomize hex src i ∈ c) :
    tasks_for_source output_dir per_subfolder copies randomize hex c src = [] := by
  apply List.filterMap_eq_nil_iff.mpr
  intro i hi
  simp [hall i hi]

theorem plan_tasks_eq_nil (output_dir : String) (per_subfolder copies : Nat)
    (randomize : Bool) (hex : String → Nat → String) (c : Finset String) :
    ∀ sources : List String,
      (∀ src ∈ sources,
        tasks_for_source output_dir per_subfolder copies randomize hex c src = []) →
      plan_tasks output_dir per_subfolder copies randomize hex c sources = [] := by
  intro sources
  induction sources with
  | nil => intro _; rfl
  | cons src rest ih =>
    intro h
    simp only [plan_tasks, h src (by simp), List.nil_append]
    exact ih (fun s hs => h s (by simp [hs]))

/-! ### Helper lemmas: archive chunking -/

theorem chunk_slices_nil (chunk_size : Nat) : chunk_slices [] chunk_size = [] := by
  rcases chunk_size with _ | cs
  · rfl
  · simp only [chunk_slices, List.length_nil, Nat.zero_add]
    rw [Nat.div_eq_of_lt (by omega)]
    rfl

theorem chunk_slices_cons (files : List String) (chunk_size : Nat)
    (hcs : 0 < chunk_size) (hne : files ≠ []) :
    chunk_slices files chunk_size
      = files.take chunk_size :: chunk_slices (files.drop chunk_size) chunk_size := by
  have hlen : 0 < files.length := List.length_pos.mpr hne
  have hkey : (files.length + chunk_size - 1) / chunk_size
      = ((files.length - chunk_size) + chunk_size - 1) / chunk_size + 1 := by
    by_cases hn : files.length ≤ chunk_size
    · have h1 : files.length - chunk_size = 0 := by omega
      have h2 : files.length + chunk_size - 1 = (files.length - 1) + chunk_size := by omega
      rw [h1, h2, Nat.add_div_right _ hcs, Nat.div_eq_of_lt (by omega),
        Nat.div_eq_of_lt (by omega)]
    · have h1 : files.length + chunk_size - 1 = (files.length - 1) + chunk_size := by omega
      have h2 : (files.length - chunk_size) + chunk_size - 1 = files.length - 1 := by omega
      rw [h1, h2, Nat.add_div_right _ hcs]
  simp only [chunk_slices, List.length_drop]
  rw [hkey, List.range_succ_eq_map, List.map_cons, List.map_map]
  congr 1
  · simp
  · apply List.map_congr_left
    intro k _
    simp only [Function.comp_apply]
    have : Nat.succ k * chunk_size = chunk_size + k * chunk_size := by
      simp [Nat.succ_mul]
      omega
    rw [this, ← List.drop_drop]

theorem chunk_slices_flatten (chunk_size : Nat) (hcs : 0 < chunk_size) :
    ∀ files : List String, (chunk_slices files chunk_size).flatten = files := by
  have main : ∀ (n : Nat) (files : List String), files.length ≤ n →
      (chunk_slices files chunk_size).flatten = files := by
    intro n
    induction n with
    | zero =>
      intro files hf
      have : files = [] := List.eq_nil_of_length_eq_zero (by omega)
      rw [this, chunk_slices_nil]
      rfl
    | succ n ih =>
      intro files hf
      by_cases hne : files = []
      · rw [hne, chunk_slices_nil]; rfl
      · rw [chunk_slices_cons files chunk_size hcs hne]
        have hlen : 0 < files.length := List.length_pos.mpr hne
        have hdrop : (files.drop chunk_size).length ≤ n := by
          rw [List.length_drop]; omega
        simp only [List.flatten_cons, ih _ hdrop, List.take_append_drop]
  intro files
  exact main files.length files (Nat.le_refl _)

theorem chunk_slices_single (files : List String) (chunk_size : Nat)
    (hcs : 0 < chunk_size) (hne : files ≠ []) (hle : files.length ≤ chunk_size) :
    chunk_slices files chunk_size = [files] := by
  rw [chunk_slices_cons files chunk_size hcs hne, List.take_of_length_le hle,
    List.drop_eq_nil_of_le hle, chunk_slices_nil]

/-! ### Helper lemmas: evaluating generate_files on its early-exit paths -/

theorem generate_files_load_error (cfg : Config) (hex : String → Nat → String) (fs : FS)
    (e : String)
    (hload : (if cfg.resume then load_resume cfg.output_dir fs else .ok ∅) = .error e) :
    generate_files cfg hex fs = ⟨.error e, fs, 0⟩ := by
  simp only [generate_files, hload]

theorem generate_files_limit_exceeded (cfg : Config) (hex : String → Nat → String)
    (fs : FS) (c0 : Finset String)
    (hlim : cfg.max_limit < cfg.sources.length * cfg.copies)
    (hload : (if cfg.resume then load_resume cfg.output_dir fs else .ok ∅) = .ok c0) :
    generate_files cfg hex fs
      = ⟨.error ("Requested " ++ natStr (cfg.sources.length * cfg.copies)
          ++ " files exceeds limit " ++ natStr cfg.max_limit), fs, 0⟩ := by
  simp only [generate_files, hload]
  rw [if_pos hlim]

/-! ### Claim theorems -/

/-- C3: if `len(sources) * copies > max_limit` the run terminates with an
error before any copy task executes and before any output file is
written: the filesystem is returned unchanged, no task is reported
processed, and the result is an error. -/
theorem c3_safety_gate (cfg : Config) (hex : String → Nat → String) (fs : FS)
    (hlimit : cfg.max_limit < cfg.sources.length * cfg.copies) :
    (generate_files cfg hex fs).fs = fs ∧ (generate_files cfg hex fs).reported = 0 ∧
      ∃ e, (generate_files cfg hex fs).result = Except.error e := by
  cases hload : (if cfg.resume then load_resume cfg.output_dir fs else .ok ∅) with
  | error e =>
    rw [generate_files_load_error cfg hex fs e hload]
    exact ⟨rfl, rfl, e, rfl⟩
  | ok c =>
    rw [generate_files_limit_exceeded cfg hex fs c hlimit hload]
    exact ⟨rfl, rfl, _, rfl⟩

/-- C3 witness: the spec scenario (one source, copies=100000,
max_limit=50000) fails with no file written. -/
theorem c3_safety_gate_witness :
    (generate_files ⟨["a.txt"], 100000, "out", 0, false, false, false, 50000⟩ hex0
        [("a.txt", FileData.content "x")]).fs = [("a.txt", FileData.content "x")] ∧
      (generate_files ⟨["a.txt"], 100000, "out", 0, false, false, false, 50000⟩ hex0
        [("a.txt", FileData.content "x")]).reported = 0 ∧
      ∃ e, (generate_files ⟨["a.txt"], 100000, "out", 0, false, false, false, 50000⟩ hex0
        [("a.txt", FileData.content "x")]).result = Except.error e :=
  c3_safety_gate ⟨["a.txt"], 100000, "out", 0, false, false, false, 50000⟩ hex0
    [("a.txt", FileData.content "x")] (by decide)

/-- C9: with `copies = 0` (a non-positive value) and an existing source,
the CLI does not fail validation: `generate_files` plans zero tasks and
`main` exits 0 printing the success summary, contradicting the claimed
non-zero exit with a validation message. -/
theorem c9_nonpositive_copies_exits_zero :
    main_run ⟨["a.txt"], 0, "out", 0, false, false, false, 50000⟩ false 5000 hex0
        [("a.txt", FileData.content "hello")]
      = ((0, "SUCCESS: 0 files processed"), [("a.txt", FileData.content "hello")]) := by
  decide

/-- C10: loading the resume ledger after saving it returns exactly the
saved set, and the serialized form (the sorted identifier list) depends
only on the set, not on the order the identifiers were inserted. -/
theorem c10_resume_roundtrip (output_dir : String) (s : Finset String) (fs : FS)
    (l1 l2 : List String) (hperm : List.Perm l1 l2) :
    load_resume output_dir (save_resume output_dir s fs) = .ok s ∧
      save_resume output_dir l1.toFinset fs = save_resume output_dir l2.toFinset fs := by
  constructor
  · unfold load_resume save_resume
    rw [fsGet_fsSet_self]
    exact congrArg Except.ok (Finset.sort_toFinset _ _)
  · unfold save_resume
    rw [List.toFinset_eq_of_perm l1 l2 hperm]

/-- C10 witness at a concrete set and a concrete permutation. -/
theorem c10_resume_roundtrip_witness :
    load_resume "out" (save_resume "out" {"b", "a"} []) = .ok {"b", "a"} ∧
      save_resume "out" (["b", "a"].toFinset) [] = save_resume "out" (["a", "b"].toFinset) [] :=
  c10_resume_roundtrip "out" {"b", "a"} [] ["b", "a"] ["a", "b"] (by decide)

/-- C7: the task planned at position `p` (copy index `i = p + 1`) has
destination directory `output_root/part_<(i-1)//per_subfolder + 1>` when
`per_subfolder > 0`, and the output root itself when `per_subfolder = 0`. -/
theorem c7_subfolder_partition (output_dir : String) (per_subfolder copies : Nat)
    (hex : String → Nat → String) (src : String) (p : Nat) (hp : p < copies) :
    ((tasks_for_source output_dir per_subfolder copies false hex ∅ src)[p]?).map Task.dst
      = some ((if 0 < per_subfolder
            then output_dir ++ "/part_" ++ natStr (p / per_subfolder + 1)
            else output_dir) ++ "/" ++ task_name false hex src (p + 1)) := by
  rw [tasks_for_source_empty, List.getElem?_map, List.getElem?_range' _ _ hp]
  have h1 : 1 + 1 * p = p + 1 := by omega
  rw [h1]
  rfl

/-- C7 witness: with per_subfolder=10, copy index 11 (position 10) lands
in part_2. -/
theorem c7_subfolder_partition_witness :
    ((tasks_for_source "out" 10 11 false hex0 ∅ "a.txt")[10]?).map Task.dst
      = some ((if 0 < 10 then "out" ++ "/part_" ++ natStr (10 / 10 + 1) else "out")
          ++ "/" ++ task_name false hex0 "a.txt" (10 + 1)) :=
  c7_subfolder_partition "out" 10 11 hex0 "a.txt" 10 (by decide)

/-- C8: for positive chunk sizes, concatenating the produced chunk entry
lists in order reproduces exactly the sorted output file list; a chunk
size at least the file count yields exactly one chunk; an empty file
list writes no archive at all. -/
theorem c8_archive_completeness (output_dir : String) (fs : FS) (chunk_size : Nat)
    (hcs : 0 < chunk_size) :
    (chunk_slices (sorted_output_files output_dir fs) chunk_size).flatten
        = sorted_output_files output_dir fs ∧
      (sorted_output_files output_dir fs ≠ [] →
        (sorted_output_files output_dir fs).length ≤ chunk_size →
        chunk_slices (sorted_output_files output_dir fs) chunk_size
          = [sorted_output_files output_dir fs]) ∧
      (sorted_output_files output_dir fs = [] →
        zip_chunks output_dir chunk_size fs = fs) := by
  refine ⟨chunk_slices_flatten chunk_size hcs _, ?_, ?_⟩
  · intro hne hle
    exact chunk_slices_single _ _ hcs hne hle
  · intro hempty
    simp [zip_chunks, hempty]

/-- C8 witness at a concrete three-file tree with chunk size 2. -/
theorem c8_archive_completeness_witness :
    (chunk_slices (sorted_output_files "base/out"
          [("base/out/a_1.txt", FileData.content "x"),
           ("base/out/a_2.txt", FileData.content "x"),
           ("base/out/a_3.txt", FileData.content "x")]) 2).flatten
        = sorted_output_files "base/out"
            [("base/out/a_1.txt", FileData.content "x"),
             ("base/out/a_2.txt", FileData.content "x"),
             ("base/out/a_3.txt", FileData.content "x")] ∧
      (sorted_output_files "base/out"
          [("base/out/a_1.txt", FileData.content "x"),
           ("base/out/a_2.txt", FileData.content "x"),
           ("base/out/a_3.txt", FileData.content "x")] ≠ [] →
        (sorted_output_files "base/out"
          [("base/out/a_1.txt", FileData.content "x"),
           ("base/out/a_2.txt", FileData.content "x"),
           ("base/out/a_3.txt", FileData.content "x")]).length ≤ 2 →
        chunk_slices (sorted_output_files "base/out"
          [("base/out/a_1.txt", FileData.content "x"),
           ("base/out/a_2.txt", FileData.content "x"),
           ("base/out/a_3.txt", FileData.content "x")]) 2
          = [sorted_output_files "base/out"
              [("base/out/a_1.txt", FileData.content "x"),
               ("base/out/a_2.txt", FileData.content "x"),
               ("base/out/a_3.txt", FileData.content "x")]]) ∧
      (sorted_output_files "base/out"
          [("base/out/a_1.txt", FileData.content "x"),
           ("base/out/a_2.txt", FileData.content "x"),
           ("base/out/a_3.txt", FileData.content "x")] = [] →
        zip_chunks "base/out" 2
          [("base/out/a_1.txt", FileData.content "x"),
           ("base/out/a_2.txt", FileData.content "x"),
           ("base/out/a_3.txt", FileData.content "x")] =
          [("base/out/a_1.txt", FileData.content "x"),
           ("base/out/a_2.txt", FileData.content "x"),
           ("base/out/a_3.txt", FileData.content "x")]) :=
  c8_archive_completeness "base/out"
    [("base/out/a_1.txt", FileData.content "x"),
     ("base/out/a_2.txt", FileData.content "x"),
     ("base/out/a_3.txt", FileData.content "x")] 2 (by decide)

theorem relTo_append (root s : String) : relTo root (root ++ "/" ++ s) = s := by
  apply String.ext
  simp only [relTo, String.data_append]
  have hlen : root.length + 1 = (root.data ++ ("/" : String).data).length := by
    rw [List.length_append]
    rfl
  rw [hlen, List.drop_left]

/-- C1 counterexample: two existing sources with the same basename
(`a.txt` and `sub/a.txt`), one copy each.  Planning succeeds and yields
`len(sources) * copies = 2` tasks, but both destinations are
`out/a_1.txt`: the destination paths are not pairwise distinct. -/
theorem c1_counterexample :
    build_tasks "out" 0 1 false hex0 ∅
        [("a.txt", FileData.content "x"), ("sub/a.txt", FileData.content "y")]
        ["a.txt", "sub/a.txt"]
      = .ok (plan_tasks "out" 0 1 false hex0 ∅ ["a.txt", "sub/a.txt"]) ∧
      (plan_tasks "out" 0 1 false hex0 ∅ ["a.txt", "sub/a.txt"]).length = 2 ∧
      (plan_tasks "out" 0 1 false hex0 ∅ ["a.txt", "sub/a.txt"]).map Task.dst
        = ["out/a_1.txt", "out/a_1.txt"] ∧
      ¬ ((plan_tasks "out" 0 1 false hex0 ∅ ["a.txt", "sub/a.txt"]).map Task.dst).Nodup := by
  refine ⟨by decide, by decide, by decide, by decide⟩

/-- C1 amended: with no resume filtering the planner produces exactly
`len(sources) * copies` tasks (in any naming mode), and in sequential
mode the destinations arising from any single source are pairwise
distinct; distinctness across different sources can fail when basenames
collide. -/
theorem c1_plan_count_and_per_source_unique (output_dir : String)
    (per_subfolder copies : Nat) (randomize : Bool) (hex : String → Nat → String)
    (sources : List String) :
    (plan_tasks output_dir per_subfolder copies randomize hex ∅ sources).length
        = sources.length * copies ∧
      ∀ src : String,
        ((tasks_for_source output_dir per_subfolder copies false hex ∅ src).map
          Task.dst).Nodup := by
  refine ⟨length_plan_tasks_empty _ _ _ _ _ _, ?_⟩
  intro src
  rw [tasks_for_source_empty, List.map_map]
  apply List.Nodup.map_on ?_ (List.nodup_range' _ _ _ (by decide))
  intro i _ j _ heq
  have hdst : task_dst output_dir per_subfolder false hex src i
      = task_dst output_dir per_subfolder false hex src j := heq
  unfold task_dst at hdst
  have h := slash_append_inj (dest_dir output_dir per_subfolder i)
    (task_name false hex src i) (dest_dir output_dir per_subfolder j)
    (task_name false hex src j)
    (fun c hc => mem_seq_name_ne_slash hex src i c hc)
    (fun c hc => mem_seq_name_ne_slash hex src j c hc) hdst
  exact seq_name_inj hex hex src i j h.1

/-- C4 counterexample: dry run with one existing source and one copy.
The run reports one task, yet the returned in-memory completed set is
the loaded one (empty): the processed task's identifier `a_1.txt` is
not recorded. -/
theorem c4_counterexample :
    (generate_files ⟨["a.txt"], 1, "out", 0, true, false, false, 100⟩ hex0
        [("a.txt", FileData.content "x")]).reported = 1 ∧
      (generate_files ⟨["a.txt"], 1, "out", 0, true, false, false, 100⟩ hex0
        [("a.txt", FileData.content "x")]).result = .ok ∅ ∧
      (plan_tasks "out" 0 1 false hex0 ∅ ["a.txt"]).map Task.name = ["a_1.txt"] := by
  refine ⟨by decide, by decide, by decide⟩

/-- C4 amended: with `dryRun = true` no file is written (the filesystem
is returned unchanged) and the reported task count is exactly what the
identical real run would report; however, the returned completed set is
the loaded one: the processed tasks' identifiers are not recorded. -/
theorem c4_dry_run_no_write_no_record (cfg : Config) (hex : String → Nat → String)
    (fs : FS) (hdry : cfg.dry_run = true) :
    (generate_files cfg hex fs).fs = fs ∧
      (∀ c, (generate_files cfg hex fs).result = .ok c →
        (if cfg.resume then load_resume cfg.output_dir fs else .ok ∅) = .ok c) ∧
      (generate_files cfg hex fs).reported
        = (generate_files (withDryRun cfg false) hex fs).reported := by
  cases hload : (if cfg.resume then load_resume cfg.output_dir fs else .ok ∅) with
  | error e =>
    have hload' : (if (withDryRun cfg false).resume
        then load_resume (withDryRun cfg false).output_dir fs else .ok ∅) = .error e := hload
    rw [generate_files_load_error cfg hex fs e hload,
      generate_files_load_error (withDryRun cfg false) hex fs e hload']
    exact ⟨rfl, fun c hc => Except.noConfusion hc, rfl⟩
  | ok c0 =>
    have hload' : (if (withDryRun cfg false).resume
        then load_resume (withDryRun cfg false).output_dir fs else .ok ∅) = .ok c0 := hload
    by_cases hlim : cfg.max_limit < cfg.sources.length * cfg.copies
    · have hlim' : (withDryRun cfg false).max_limit
          < (withDryRun cfg false).sources.length * (withDryRun cfg false).copies := hlim
      rw [generate_files_limit_exceeded cfg hex fs c0 hlim hload,
        generate_files_limit_exceeded (withDryRun cfg false) hex fs c0 hlim' hload']
      exact ⟨rfl, fun c hc => Except.noConfusion hc, rfl⟩
    · cases hbuild : build_tasks cfg.output_dir cfg.per_subfolder cfg.copies
          cfg.randomize hex c0 fs cfg.sources with
      | error e =>
        have hg : generate_files cfg hex fs = ⟨.error e, fs, 0⟩ := by
          simp only [generate_files, hload]
          rw [if_neg hlim, hbuild]
        have hg' : generate_files (withDryRun cfg false) hex fs = ⟨.error e, fs, 0⟩ := by
          simp only [generate_files, withDryRun, hload]
          rw [if_neg hlim, hbuild]
        rw [hg, hg']
        exact ⟨rfl, fun c hc => Except.noConfusion hc, rfl⟩
      | ok tasks =>
        have hg : generate_files cfg hex fs = ⟨.ok c0, fs, tasks.length⟩ := by
          simp only [generate_files, hload]
          rw [if_neg hlim, hbuild]
          simp only [hdry, if_true]
        have hg' : (generate_files (withDryRun cfg false) hex fs).reported
            = tasks.length := by
          simp only [generate_files, withDryRun, hload]
          rw [if_neg hlim, hbuild]
          simp only [Bool.false_eq_true, if_false]
        rw [hg, hg']
        refine ⟨rfl, ?_, rfl⟩
        intro c hc
        have : c0 = c := Except.ok.inj hc
        rw [this]

/-- C4 witness: a concrete dry run (one source, one copy). -/
theorem c4_dry_run_witness :
    (generate_files ⟨["a.txt"], 1, "out", 0, true, false, false, 100⟩ hex0
        [("a.txt", FileData.content "x")]).fs = [("a.txt", FileData.content "x")] ∧
      (∀ c, (generate_files ⟨["a.txt"], 1, "out", 0, true, false, false, 100⟩ hex0
          [("a.txt", FileData.content "x")]).result = .ok c →
        (if (⟨["a.txt"], 1, "out", 0, true, false, false, 100⟩ : Config).resume
          then load_resume (⟨["a.txt"], 1, "out", 0, true, false, false, 100⟩ : Config).output_dir
            [("a.txt", FileData.content "x")]
          else .ok ∅) = .ok c) ∧
      (generate_files ⟨["a.txt"], 1, "out", 0, true, false, false, 100⟩ hex0
          [("a.txt", FileData.content "x")]).reported
        = (generate_files (withDryRun ⟨["a.txt"], 1, "out", 0, true, false, false, 100⟩ false)
            hex0 [("a.txt", FileData.content "x")]).reported :=
  c4_dry_run_no_write_no_record ⟨["a.txt"], 1, "out", 0, true, false, false, 100⟩ hex0
    [("a.txt", FileData.content "x")] (by decide)

/-- C5 counterexample: in the CLI the randomized destination filename is
`<stem>_<hex><ext>`, not `<hex><ext>`: with source `a.txt` and the draw
`deadbeef` the name is `a_deadbeef.txt`, which differs from the claimed
`deadbeef.txt`. -/
theorem c5_counterexample :
    task_name true hex0 "a.txt" 1 = "a_deadbeef.txt" ∧
      task_name true hex0 "a.txt" 1 ≠ hex0 "a.txt" 1 ++ pathSuffix "a.txt" := by
  refine ⟨by decide, by decide⟩

/-- C5 amended: sequential names are `<stem>_<i><ext>` in both programs
(witnessed by the a.txt scenario producing a_1.txt, a_2.txt, a_3.txt);
randomized names are `<hex><ext>` in the advanced positional script but
`<stem>_<hex><ext>` in the CLI. -/
theorem c5_naming (hex : String → Nat → String) (src : String) (i : Nat)
    (hexv nm ext : String) :
    task_name false hex src i = pathStem src ++ "_" ++ natStr i ++ pathSuffix src ∧
      task_name true hex src i = pathStem src ++ "_" ++ hex src i ++ pathSuffix src ∧
      adv_filename true hexv nm ext i = hexv ++ ext ∧
      adv_filename false hexv nm ext i = nm ++ "_" ++ natStr i ++ ext ∧
      (tasks_for_source "out" 0 3 false hex0 ∅ "a.txt").map Task.dst
        = ["out/a_1.txt", "out/a_2.txt", "out/a_3.txt"] :=
  ⟨rfl, rfl, rfl, rfl, by decide⟩

/-- C6 counterexample: with `per_subfolder = 1` the planned task for
`a.txt` has identifier `a_1.txt` but destination `out/part_1/a_1.txt`,
whose relative form `part_1/a_1.txt` differs from the identifier. -/
theorem c6_counterexample :
    (plan_tasks "out" 1 1 false hex0 ∅ ["a.txt"]).map Task.name = ["a_1.txt"] ∧
      (plan_tasks "out" 1 1 false hex0 ∅ ["a.txt"]).map Task.dst = ["out/part_1/a_1.txt"] ∧
      relTo "out" "out/part_1/a_1.txt" = "part_1/a_1.txt" ∧
      ("part_1/a_1.txt" : String) ≠ "a_1.txt" := by
  refine ⟨by decide, by decide, by decide, by decide⟩

/-- C6 amended: in sequential mode the stable task identifier is the
destination's final filename component; it equals the destination
path's relative form with respect to the output root only when
`perSubfolder = 0` (with subfolders it omits the `part_<n>` component). -/
theorem c6_task_identifier (output_dir : String) (per_subfolder copies : Nat)
    (hex : String → Nat → String) (completed : Finset String) (src : String) (t : Task)
    (ht : t ∈ tasks_for_source output_dir per_subfolder copies false hex completed src) :
    t.name = baseName t.dst ∧
      (per_subfolder = 0 →
        t.dst = output_dir ++ "/" ++ t.name ∧ relTo output_dir t.dst = t.name) := by
  obtain ⟨i, hi, hf⟩ := List.mem_filterMap.mp ht
  by_cases hm : task_name false hex src i ∈ completed
  · rw [if_pos hm] at hf
    exact Option.noConfusion hf
  · rw [if_neg hm] at hf
    have ht' := Option.some.inj hf
    subst ht'
    constructor
    · exact (baseName_append (dest_dir output_dir per_subfolder i)
        (task_name false hex src i)
        (fun c hc => mem_seq_name_ne_slash hex src i c hc)).symm
    · intro hps
      have hdd : dest_dir output_dir per_subfolder i = output_dir := by
        unfold dest_dir
        rw [hps]
        simp
      have hdst : task_dst output_dir per_subfolder false hex src i
          = output_dir ++ "/" ++ task_name false hex src i := by
        unfold task_dst
        rw [hdd]
      exact ⟨hdst, by rw [show (⟨src, task_dst output_dir per_subfolder false hex src i,
        task_name false hex src i⟩ : Task).dst = task_dst output_dir per_subfolder false hex
          src i from rfl, hdst]; exact relTo_append _ _⟩

/-- C6 witness: the single sequential task of a one-copy plan without
subfolders. -/
theorem c6_task_identifier_witness :
    (⟨"a.txt", "out/a_1.txt", "a_1.txt"⟩ : Task).name
        = baseName (⟨"a.txt", "out/a_1.txt", "a_1.txt"⟩ : Task).dst ∧
      ((0 : Nat) = 0 →
        (⟨"a.txt", "out/a_1.txt", "a_1.txt"⟩ : Task).dst
            = "out" ++ "/" ++ (⟨"a.txt", "out/a_1.txt", "a_1.txt"⟩ : Task).name ∧
          relTo "out" (⟨"a.txt", "out/a_1.txt", "a_1.txt"⟩ : Task).dst
            = (⟨"a.txt", "out/a_1.txt", "a_1.txt"⟩ : Task).name) :=
  c6_task_identifier "out" 0 1 hex0 ∅ "a.txt" ⟨"a.txt", "out/a_1.txt", "a_1.txt"⟩ (by decide)

/-- C2: with resume enabled, sequential naming and no dry run, a
successful run followed by a second run with identical parameters (and
any fresh uuid oracle `hex2`, unused in sequential mode) leaves the
filesystem literally unchanged: the second run loads exactly the saved
completed set, plans zero tasks, performs zero copy operations
(`reported = 0`) and returns the same completed set and filesystem.
Moreover a task is skipped in planning if and only if its identifier is
in the completed set (last conjunct). -/
theorem c2_resume_idempotent (cfg : Config) (hex hex2 : String → Nat → String)
    (fs0 : FS) (c0 : Finset String)
    (hres : cfg.resume = true) (hrand : cfg.randomize = false) (hdry : cfg.dry_run = false)
    (hload : load_resume cfg.output_dir fs0 = .ok c0)
    (hlimit : cfg.sources.length * cfg.copies ≤ cfg.max_limit)
    (hexist : ∀ s ∈ cfg.sources, (fsGet fs0 s).isSome = true) :
    ∃ c1 : Finset String,
      (generate_files cfg hex fs0).result = .ok c1 ∧
      load_resume cfg.output_dir (generate_files cfg hex fs0).fs = .ok c1 ∧
      build_tasks cfg.output_dir cfg.per_subfolder cfg.copies cfg.randomize hex2 c1
          (generate_files cfg hex fs0).fs cfg.sources = .ok [] ∧
      generate_files cfg hex2 (generate_files cfg hex fs0).fs
        = ⟨.ok c1, (generate_files cfg hex fs0).fs, 0⟩ ∧
      (∀ (completed : Finset String) (src : String),
        tasks_for_source cfg.output_dir cfg.per_subfolder cfg.copies cfg.randomize hex
            completed src
          = (tasks_for_source cfg.output_dir cfg.per_subfolder cfg.copies cfg.randomize hex
              ∅ src).filter (fun t => !(decide (t.name ∈ completed)))) := by
  have hnotlt : ¬ cfg.max_limit < cfg.sources.length * cfg.copies := by omega
  have hbuild1 : build_tasks cfg.output_dir cfg.per_subfolder cfg.copies cfg.randomize hex
      c0 fs0 cfg.sources
      = .ok (plan_tasks cfg.output_dir cfg.per_subfolder cfg.copies cfg.randomize hex
          c0 cfg.sources) :=
    build_tasks_eq_ok _ _ _ _ _ _ _ cfg.sources hexist
  have hg1 : generate_files cfg hex fs0
      = ⟨.ok (c0 ∪ ((plan_tasks cfg.output_dir cfg.per_subfolder cfg.copies cfg.randomize hex
            c0 cfg.sources).map Task.name).toFinset),
         save_resume cfg.output_dir
           (c0 ∪ ((plan_tasks cfg.output_dir cfg.per_subfolder cfg.copies cfg.randomize hex
              c0 cfg.sources).map Task.name).toFinset)
           ((plan_tasks cfg.output_dir cfg.per_subfolder cfg.copies cfg.randomize hex
              c0 cfg.sources).foldl (fun a t => copy_one a t.src t.dst) fs0),
         (plan_tasks cfg.output_dir cfg.per_subfolder cfg.copies cfg.randomize hex
            c0 cfg.sources).length⟩ := by
    unfold generate_files
    rw [hres]
    simp only [eq_self_iff_true, if_true, hload]
    rw [if_neg hnotlt, hbuild1, hdry]
    simp only [Bool.false_eq_true, if_false]
  have hload2 : load_resume cfg.output_dir
      (save_resume cfg.output_dir
        (c0 ∪ ((plan_tasks cfg.output_dir cfg.per_subfolder cfg.copies cfg.randomize hex
            c0 cfg.sources).map Task.name).toFinset)
        ((plan_tasks cfg.output_dir cfg.per_subfolder cfg.copies cfg.randomize hex
            c0 cfg.sources).foldl (fun a t => copy_one a t.src t.dst) fs0))
      = .ok (c0 ∪ ((plan_tasks cfg.output_dir cfg.per_subfolder cfg.copies cfg.randomize hex
          c0 cfg.sources).map Task.name).toFinset) := by
    unfold load_resume save_resume
    rw [fsGet_fsSet_self]
    exact congrArg Except.ok (Finset.sort_toFinset _ _)
  have hexist2 : ∀ s ∈ cfg.sources,
      (fsGet (save_resume cfg.output_dir
        (c0 ∪ ((plan_tasks cfg.output_dir cfg.per_subfolder cfg.copies cfg.randomize hex
            c0 cfg.sources).map Task.name).toFinset)
        ((plan_tasks cfg.output_dir cfg.per_subfolder cfg.copies cfg.randomize hex
            c0 cfg.sources).foldl (fun a t => copy_one a t.src t.dst) fs0)) s).isSome
        = true := by
    intro s hs
    exact isSome_fsGet_fsSet _ _ _ _ (isSome_fsGet_foldl_copy _ _ _ (hexist s hs))
  have hnames : ∀ src ∈ cfg.sources, ∀ i ∈ List.range' 1 cfg.copies,
      task_name cfg.randomize hex2 src i
        ∈ c0 ∪ ((plan_tasks cfg.output_dir cfg.per_subfolder cfg.copies cfg.randomize hex
            c0 cfg.sources).map Task.name).toFinset := by
    intro src hs i hi
    have hname_eq : task_name cfg.randomize hex2 src i
        = task_name cfg.randomize hex src i := by
      rw [hrand]
      rfl
    rw [hname_eq]
    rcases mem_name_plan cfg.output_dir cfg.per_subfolder cfg.copies cfg.randomize hex c0
        cfg.sources src i hs hi with h | h
    · exact Finset.mem_union_left _ h
    · exact Finset.mem_union_right _ (List.mem_toFinset.mpr h)
  have hplan2 : plan_tasks cfg.output_dir cfg.per_subfolder cfg.copies cfg.randomize hex2
      (c0 ∪ ((plan_tasks cfg.output_dir cfg.per_subfolder cfg.copies cfg.randomize hex
          c0 cfg.sources).map Task.name).toFinset) cfg.sources = [] :=
    plan_tasks_eq_nil _ _ _ _ _ _ cfg.sources
      (fun src hs => tasks_for_source_eq_nil _ _ _ _ _ _ _ (hnames src hs))
  have hbuild2 : build_tasks cfg.output_dir cfg.per_subfolder cfg.copies cfg.randomize hex2
      (c0 ∪ ((plan_tasks cfg.output_dir cfg.per_subfolder cfg.copies cfg.randomize hex
          c0 cfg.sources).map Task.name).toFinset)
      (save_resume cfg.output_dir
        (c0 ∪ ((plan_tasks cfg.output_dir cfg.per_subfolder cfg.copies cfg.randomize hex
            c0 cfg.sources).map Task.name).toFinset)
        ((plan_tasks cfg.output_dir cfg.per_subfolder cfg.copies cfg.randomize hex
            c0 cfg.sources).foldl (fun a t => copy_one a t.src t.dst) fs0))
      cfg.sources = .ok [] := by
    rw [build_tasks_eq_ok _ _ _ _ _ _ _ cfg.sources hexist2, hplan2]
  have hg2 : generate_files cfg hex2
      (save_resume cfg.output_dir
        (c0 ∪ ((plan_tasks cfg.output_dir cfg.per_subfolder cfg.copies cfg.randomize hex
            c0 cfg.sources).map Task.name).toFinset)
        ((plan_tasks cfg.output_dir cfg.per_subfolder cfg.copies cfg.randomize hex
            c0 cfg.sources).foldl (fun a t => copy_one a t.src t.dst) fs0))
      = ⟨.ok (c0 ∪ ((plan_tasks cfg.output_dir cfg.per_subfolder cfg.copies cfg.randomize hex
            c0 cfg.sources).map Task.name).toFinset),
         save_resume cfg.output_dir
           (c0 ∪ ((plan_tasks cfg.output_dir cfg.per_subfolder cfg.copies cfg.randomize hex
              c0 cfg.sources).map Task.name).toFinset)
           ((plan_tasks cfg.output_dir cfg.per_subfolder cfg.copies cfg.randomize hex
              c0 cfg.sources).foldl (fun a t => copy_one a t.src t.dst) fs0),
         0⟩ := by
    unfold generate_files
    rw [hres]
    simp only [eq_self_iff_true, if_true, hload2]
    rw [if_neg hnotlt, hbuild2, hdry]
    simp only [Bool.false_eq_true, if_false]
    have hu : (c0 ∪ ((plan_tasks cfg.output_dir cfg.per_subfolder cfg.copies cfg.randomize hex
          c0 cfg.sources).map Task.name).toFinset)
        ∪ (([] : List Task).map Task.name).toFinset
        = c0 ∪ ((plan_tasks cfg.output_dir cfg.per_subfolder cfg.copies cfg.randomize hex
            c0 cfg.sources).map Task.name).toFinset := by
      simp
    rw [hu]
    simp only [List.foldl_nil, List.length_nil]
    have hsave : save_resume cfg.output_dir
        (c0 ∪ ((plan_tasks cfg.output_dir cfg.per_subfolder cfg.copies cfg.randomize hex
            c0 cfg.sources).map Task.name).toFinset)
        (save_resume cfg.output_dir
          (c0 ∪ ((plan_tasks cfg.output_dir cfg.per_subfolder cfg.copies cfg.randomize hex
              c0 cfg.sources).map Task.name).toFinset)
          ((plan_tasks cfg.output_dir cfg.per_subfolder cfg.copies cfg.randomize hex
              c0 cfg.sources).foldl (fun a t => copy_one a t.src t.dst) fs0))
        = save_resume cfg.output_dir
            (c0 ∪ ((plan_tasks cfg.output_dir cfg.per_subfolder cfg.copies cfg.randomize hex
                c0 cfg.sources).map Task.name).toFinset)
            ((plan_tasks cfg.output_dir cfg.per_subfolder cfg.copies cfg.randomize hex
                c0 cfg.sources).foldl (fun a t => copy_one a t.src t.dst) fs0) := by
      unfold save_resume
      exact fsSet_fsSet_self _ _ _
    rw [hsave]
  refine ⟨c0 ∪ ((plan_tasks cfg.output_dir cfg.per_subfolder cfg.copies cfg.randomize hex
      c0 cfg.sources).map Task.name).toFinset, ?_, ?_, ?_, ?_, ?_⟩
  · rw [hg1]
  · rw [hg1]
    exact hload2
  · rw [hg1]
    exact hbuild2
  · rw [hg1]
    exact hg2
  · intro completed src
    exact tasks_for_source_filter cfg.output_dir cfg.per_subfolder cfg.copies cfg.randomize
      hex completed src

/-- C2 witness: one source, one copy, resume on, starting from a tree
with no prior resume state. -/
theorem c2_resume_idempotent_witness :
    ∃ c1 : Finset String,
      (generate_files ⟨["a.txt"], 1, "out", 0, false, true, false, 100⟩ hex0
          [("a.txt", FileData.content "x")]).result = .ok c1 ∧
      load_resume "out" (generate_files ⟨["a.txt"], 1, "out", 0, false, true, false, 100⟩ hex0
          [("a.txt", FileData.content "x")]).fs = .ok c1 ∧
      build_tasks "out" 0 1 false hex0 c1
          (generate_files ⟨["a.txt"], 1, "out", 0, false, true, false, 100⟩ hex0
            [("a.txt", FileData.content "x")]).fs ["a.txt"] = .ok [] ∧
      generate_files ⟨["a.txt"], 1, "out", 0, false, true, false, 100⟩ hex0
          (generate_files ⟨["a.txt"], 1, "out", 0, false, true, false, 100⟩ hex0
            [("a.txt", FileData.content "x")]).fs
        = ⟨.ok c1, (generate_files ⟨["a.txt"], 1, "out", 0, false, true, false, 100⟩ hex0
            [("a.txt", FileData.content "x")]).fs, 0⟩ ∧
      (∀ (completed : Finset String) (src : String),
        tasks_for_source "out" 0 1 false hex0 completed src
          = (tasks_for_source "out" 0 1 false hex0 ∅ src).filter
              (fun t => !(decide (t.name ∈ completed)))) :=
  c2_resume_idempotent ⟨["a.txt"], 1, "out", 0, false, true, false, 100⟩ hex0 hex0
    [("a.txt", FileData.content "x")] ∅ rfl rfl rfl (by decide) (by decide) (by decide)

end DupFiles
